import Mathlib

/-!
Verification of the multi-modal nutrition-analysis pipeline (src/index.js).

The JavaScript source is shallowly embedded: JS numbers are modelled as exact
rationals together with explicit NaN and signed-infinity sentinels (`JSNum`),
JS values as the inductive `JSVal`, and every function under verification is
translated into a total executable Lean definition mirroring the source line
by line.  Fallible JS code (property access on null, `Array.prototype.join`
on a non-array) is modelled with `Option`.  External collaborators (the HTTP
client, the inference API, ffmpeg) are passed in as explicit oracles.

Modelling notes, stated once here:
* `ToNumber` on arrays/objects is modelled as NaN (the generic object case);
  no verified claim exercises array-to-number coercion.
* String-to-number parsing covers decimal literals, signed forms, exponents
  and the Infinity literal; the hex/octal/binary literal forms are modelled
  as NaN (the characters `x`, `o`, `b` cannot survive the numeric-stripping
  regex used by the code under test).
* Exact rationals do not overflow to Infinity the way 64-bit floats do; the
  claims proved below are insensitive to this (they concern finiteness,
  sign, rounding and choice-of-candidate, never float saturation).
-/

set_option maxRecDepth 2000

namespace Cal2

/-- A JavaScript number: a finite value (exact rational), NaN, or a signed
infinity (`inf true` is positive infinity). -/
inductive JSNum where
  | fin (q : ℚ)
  | nan
  | inf (pos : Bool)
deriving DecidableEq, Repr

/-- A JavaScript value: null, undefined, boolean, number, string, array or
object (an insertion-ordered field list; lookup takes the first match). -/
inductive JSVal where
  | vnull
  | vundefined
  | vbool (b : Bool)
  | vnum (n : JSNum)
  | vstr (s : String)
  | varr (elems : List JSVal)
  | vobj (fields : List (String × JSVal))

/-- Number.isFinite. -/
def JSNum.isFinite : JSNum → Bool
  | .fin _ => true
  | _ => false

/-- Truthiness of a JS number: 0, -0 and NaN are falsy. -/
def JSNum.truthy : JSNum → Bool
  | .fin q => decide (q ≠ 0)
  | .nan => false
  | .inf _ => true

/-- The idiom `n || 0` applied to a number: falsy (0 or NaN) becomes 0. -/
def JSNum.orZero (n : JSNum) : JSNum := if n.truthy then n else .fin 0

/-- The comparison `0 < n` in JS: false for NaN, true for +Infinity. -/
def JSNum.gtZero : JSNum → Bool
  | .fin q => decide (0 < q)
  | .nan => false
  | .inf p => p

/-- IEEE-style addition: NaN is absorbing, infinities of opposite sign
give NaN. -/
def JSNum.add : JSNum → JSNum → JSNum
  | .nan, _ => .nan
  | _, .nan => .nan
  | .fin a, .fin b => .fin (a + b)
  | .inf p, .fin _ => .inf p
  | .fin _, .inf p => .inf p
  | .inf p, .inf q => if p = q then .inf p else .nan

/-- Math.min on two numbers: NaN if either argument is NaN. -/
def JSNum.minB : JSNum → JSNum → JSNum
  | .nan, _ => .nan
  | _, .nan => .nan
  | .fin a, .fin b => .fin (min a b)
  | .inf p, .fin b => if p then .fin b else .inf false
  | .fin a, .inf p => if p then .fin a else .inf false
  | .inf p, .inf q => .inf (p && q)

/-- Math.max on two numbers: NaN if either argument is NaN. -/
def JSNum.maxB : JSNum → JSNum → JSNum
  | .nan, _ => .nan
  | _, .nan => .nan
  | .fin a, .fin b => .fin (max a b)
  | .inf p, .fin b => if p then .inf true else .fin b
  | .fin a, .inf p => if p then .inf true else .fin a
  | .inf p, .inf q => .inf (p || q)

/-- Floor of a rational, computed on the numerator/denominator pair
(the denominator is positive, and integer division on ℤ is Euclidean,
hence floors). -/
def qFloor (q : ℚ) : ℤ := q.num / q.den

/-- Math.round on a finite value: floor(q + 1/2). -/
def jsRoundQ (q : ℚ) : ℤ := qFloor (q + 1 / 2)

/-- Math.round: NaN and the infinities are fixed points. -/
def JSNum.round : JSNum → JSNum
  | .fin q => .fin ((jsRoundQ q : ℤ) : ℚ)
  | n => n

/-- Truthiness of a JS value. -/
def truthy : JSVal → Bool
  | .vnull => false
  | .vundefined => false
  | .vbool b => b
  | .vnum n => n.truthy
  | .vstr s => s != ""
  | .varr _ => true
  | .vobj _ => true

/-- The test `x != null`, true unless x is null or undefined. -/
def nonNullish : JSVal → Bool
  | .vnull => false
  | .vundefined => false
  | _ => true

/-- Property access `v.k` for a guarded receiver: objects look the key up
(first match), every non-object yields undefined.  Call sites in the source
only reach this after a null/undefined guard, matching JS semantics. -/
def getF (v : JSVal) (k : String) : JSVal :=
  match v with
  | .vobj fs => (fs.lookup k).getD .vundefined
  | _ => .vundefined

/-- Optional chaining `v?.k`: null/undefined receivers give undefined. -/
def getOpt (v : JSVal) (k : String) : JSVal :=
  match v with
  | .vnull => .vundefined
  | .vundefined => .vundefined
  | _ => getF v k

/-- Unguarded property access `v.k`, which throws on null/undefined. -/
def strictGet (v : JSVal) (k : String) : Option JSVal :=
  match v with
  | .vnull => none
  | .vundefined => none
  | _ => some (getF v k)

/-- Nullish coalescing `x ?? y`. -/
def nullish (x y : JSVal) : JSVal :=
  match x with
  | .vnull => y
  | .vundefined => y
  | _ => x

/-- Logical or `x || y` on values. -/
def jsOr (x y : JSVal) : JSVal := if truthy x then x else y

/-- Strict equality of a value against a string literal. -/
def isStr (v : JSVal) (s : String) : Bool :=
  match v with
  | .vstr t => t == s
  | _ => false

/-- The test `typeof v === "object"` (true for objects, arrays and null). -/
def isObjType : JSVal → Bool
  | .vobj _ => true
  | .varr _ => true
  | .vnull => true
  | _ => false

/-! ### String-to-number (the JS `Number(string)` conversion) -/

/-- Decimal value of a digit string. -/
def digitsToNat (ds : List Char) : ℕ :=
  ds.foldl (fun a c => a * 10 + (c.toNat - 48)) 0

/-- Parses the optional exponent tail of a numeric literal; the whole
remaining input must be consumed (any trailing garbage gives NaN). -/
def parseExpTail (mant : ℚ) (cs : List Char) : Option ℚ :=
  match cs with
  | [] => some mant
  | c :: rest =>
    if c = 'e' ∨ c = 'E' then
      let sr : ℤ × List Char :=
        match rest with
        | '+' :: r => (1, r)
        | '-' :: r => (-1, r)
        | r => (1, r)
      let (ds, rest3) := sr.2.span Char.isDigit
      if ds.isEmpty ∨ ¬ rest3.isEmpty then none
      else some (mant * (10 : ℚ) ^ (sr.1 * (digitsToNat ds : ℤ)))
    else none

/-- Parses an unsigned decimal literal (digits, optional fraction, optional
exponent); the whole input must be consumed. -/
def parseDec (cs : List Char) : Option ℚ :=
  let (ip, rest) := cs.span Char.isDigit
  match rest with
  | '.' :: rest2 =>
    let (fp, rest3) := rest2.span Char.isDigit
    if ip.isEmpty ∧ fp.isEmpty then none
    else parseExpTail
      ((digitsToNat ip : ℚ) + (digitsToNat fp : ℚ) / (10 : ℚ) ^ fp.length) rest3
  | _ => if ip.isEmpty then none else parseExpTail (digitsToNat ip) rest

/-- Whitespace trimming on both ends of a character list (the model works
on character lists throughout so that every definition reduces in the
kernel; the library String.trim is well-founded-recursive and does not). -/
def trimChars (cs : List Char) : List Char :=
  ((cs.dropWhile Char.isWhitespace).reverse.dropWhile Char.isWhitespace).reverse

/-- JS ToNumber on a string: trim, empty means 0, optional sign, then either
the Infinity literal or a decimal literal; anything else is NaN. -/
def strToNumber (s : String) : JSNum :=
  let t := trimChars s.data
  if t.isEmpty then .fin 0
  else
    let sb : ℚ × List Char :=
      match t with
      | '+' :: r => (1, r)
      | '-' :: r => (-1, r)
      | r => (1, r)
    if sb.2 = ['I', 'n', 'f', 'i', 'n', 'i', 't', 'y'] then .inf (sb.1 = 1)
    else
      match parseDec sb.2 with
      | some q => .fin (sb.1 * q)
      | none => .nan

/-- JS ToNumber on a value (see the modelling notes in the file header for
the array/object case). -/
def toNumber : JSVal → JSNum
  | .vnull => .fin 0
  | .vundefined => .nan
  | .vbool b => .fin (if b then 1 else 0)
  | .vnum n => n
  | .vstr s => strToNumber s
  | .varr _ => .nan
  | .vobj _ => .nan

/-! ### The lenient numeric coercion (src/index.js lines 962-971) -/

/-- The character class kept by the stripping regex: digits, e, E, +, ., -. -/
def keptNumeric (c : Char) : Bool :=
  c.isDigit || c == 'e' || c == 'E' || c == '+' || c == '.' || c == '-'

/-- The replace call that deletes every character outside `keptNumeric`. -/
def stripNonNumeric (s : String) : String :=
  ⟨s.data.filter keptNumeric⟩

/-- The helper num(x, def): finite numbers pass through, strings are
stripped and re-parsed (kept only when finite), everything else gives the
default.  Total, so the JS function's never-throws contract is inherent. -/
def num (x : JSVal) (d : JSNum) : JSNum :=
  match x with
  | .vnum n => if n.isFinite then n else d
  | .vstr s =>
    let n := strToNumber (stripNonNumeric s)
    if n.isFinite then n else d
  | _ => d

/-! ### Number-to-string and value-to-string conversions -/

/-- One hexadecimal digit, lowercase (as produced by JSON.stringify). -/
def hexDigitChar (n : ℕ) : Char :=
  Char.ofNat (if n < 10 then 48 + n else 87 + n)

/-- Decimal digits of the fractional part of a rational in [0, 1), produced
by repeated multiplication by 10; the fuel bounds the output length.  This
models the terminating decimal expansions that JS float-to-string printing
produces (every double has one); exponent notation for extreme magnitudes
is not modelled (see the file header). -/
def fracDigits : ℚ → ℕ → List Char
  | _, 0 => []
  | q, fuel + 1 =>
    if q = 0 then []
    else
      let q10 := q * 10
      let d := (q10.num / (q10.den : ℤ)).toNat
      Char.ofNat (48 + d) :: fracDigits (q10 - (d : ℚ)) fuel

/-- Decimal rendering of a rational: sign, integer part, then a fractional
part when nonzero. -/
def qToDecimalString (q : ℚ) : String :=
  let sign := if q < 0 then "-" else ""
  let aq := |q|
  let ip := (aq.num / (aq.den : ℤ)).toNat
  let frac := aq - (ip : ℚ)
  if frac = 0 then sign ++ toString ip
  else sign ++ toString ip ++ "." ++ ⟨fracDigits frac 40⟩

/-- JS number-to-string. -/
def numToString : JSNum → String
  | .nan => "NaN"
  | .inf true => "Infinity"
  | .inf false => "-Infinity"
  | .fin q => qToDecimalString q

/-- Separator-joined concatenation built on character lists (avoids the
library String.intercalate so everything kernel-reduces). -/
def joinSep (sep : String) : List String → String
  | [] => ""
  | [s] => s
  | s :: rest => s ++ sep ++ joinSep sep rest

mutual
/-- JS ToString, as applied by template literals and String(x). -/
def jsToString : JSVal → String
  | .vnull => "null"
  | .vundefined => "undefined"
  | .vbool b => if b then "true" else "false"
  | .vnum n => numToString n
  | .vstr s => s
  | .varr xs => joinSep "," (jsArrToStrings xs)
  | .vobj _ => "[object Object]"

/-- Array element stringification as used by Array.prototype.join: null and
undefined render as the empty string. -/
def jsArrToStrings : List JSVal → List String
  | [] => []
  | .vnull :: xs => "" :: jsArrToStrings xs
  | .vundefined :: xs => "" :: jsArrToStrings xs
  | x :: xs => jsToString x :: jsArrToStrings xs
end

/-- Array.prototype.join with an explicit separator; a TypeError (join on a
non-array) is modelled as none. -/
def jsJoin (v : JSVal) (sep : String) : Option String :=
  match v with
  | .varr xs => some (joinSep sep (jsArrToStrings xs))
  | _ => none

/-! ### JSON.stringify (needed by the calorie resolver's last-resort scan) -/

/-- JSON string escaping for one character (double quote, backslash, the
short control escapes, then the u-escape for other control characters). -/
def jsonEscapeChar (c : Char) : String :=
  if c = '"' then "\\\""
  else if c = '\\' then "\\\\"
  else if c = '\n' then "\\n"
  else if c = '\r' then "\\r"
  else if c = '\t' then "\\t"
  else if c.toNat = 8 then "\\b"
  else if c.toNat = 12 then "\\f"
  else if c.toNat < 32 then
    ⟨['\\', 'u', '0', '0', hexDigitChar (c.toNat / 16), hexDigitChar (c.toNat % 16)]⟩
  else ⟨[c]⟩

/-- A JSON-quoted string literal. -/
def jsonQuote (s : String) : String :=
  "\"" ++ joinSep "" (s.data.map jsonEscapeChar) ++ "\""

/-- JSON rendering of a number: NaN and the infinities serialize as null. -/
def jsonNumStr : JSNum → String
  | .fin q => qToDecimalString q
  | _ => "null"

mutual
/-- JSON.stringify; undefined is not serializable as a top-level value
(none), becomes null inside arrays, and drops the property inside objects. -/
def jsonStringify : JSVal → Option String
  | .vnull => some "null"
  | .vundefined => none
  | .vbool b => some (if b then "true" else "false")
  | .vnum n => some (jsonNumStr n)
  | .vstr s => some (jsonQuote s)
  | .varr xs => some ("[" ++ joinSep "," (jsonArrElems xs) ++ "]")
  | .vobj fs => some ("\x7b" ++ joinSep "," (jsonObjMembers fs) ++ "\x7d")

def jsonArrElems : List JSVal → List String
  | [] => []
  | x :: xs => ((jsonStringify x).getD "null") :: jsonArrElems xs

def jsonObjMembers : List (String × JSVal) → List String
  | [] => []
  | (k, v) :: fs =>
    match jsonStringify v with
    | some sv => (jsonQuote k ++ ":" ++ sv) :: jsonObjMembers fs
    | none => jsonObjMembers fs
end

/-! ### The calorie resolver (src/index.js lines 974-1058) -/

/-- The inner loop of trySumDetails: the first key whose field is non-null
and coerces to a truthy number wins; a non-null-but-falsy coercion falls
through to the next key, exactly as the for/if/if in the source. -/
def pickKey (it : JSVal) : List String → Option JSNum
  | [] => none
  | k :: ks =>
    if nonNullish (getF it k) ∧ (num (getF it k) (.fin 0)).truthy
    then some (num (getF it k) (.fin 0))
    else pickKey it ks

/-- One reduce step of trySumDetails: non-objects are skipped; otherwise the
first usable key contributes, else a truthy calories_text contributes. -/
def trySumStep (keys : List String) (s : JSNum) (it : JSVal) : JSNum :=
  if truthy it ∧ isObjType it then
    match pickKey it keys with
    | some v => s.add v
    | none =>
      if truthy (getF it "calories_text") then
        let v := num (getF it "calories_text") (.fin 0)
        if v.truthy then s.add v else s
      else s
  else s

/-- trySumDetails(arr, keys): 0 for non-arrays, else the reduce above. -/
def trySumDetails (keys : List String) (arr : JSVal) : JSNum :=
  match arr with
  | .varr items => items.foldl (trySumStep keys) (.fin 0)
  | _ => .fin 0

/-- The key order used for every details array in the resolver. -/
def sumKeys : List String := ["calories_burned", "calories"]

/-- Step 1 candidates: top-level totals (calories_burned then calories). -/
def totalsCands (a : JSVal) : List JSNum :=
  if truthy (getF a "totals") then
    (if nonNullish (getF (getF a "totals") "calories_burned")
     then [num (getF (getF a "totals") "calories_burned") (.fin 0)] else []) ++
    (if nonNullish (getF (getF a "totals") "calories")
     then [num (getF (getF a "totals") "calories") (.fin 0)] else [])
  else []

/-- Step 2 candidates from analysis.workout.totals. -/
def workoutCands (a : JSVal) : List JSNum :=
  if truthy (getF a "workout") ∧ truthy (getF (getF a "workout") "totals") then
    (if nonNullish (getF (getF (getF a "workout") "totals") "calories_burned")
     then [num (getF (getF (getF a "workout") "totals") "calories_burned") (.fin 0)] else []) ++
    (if nonNullish (getF (getF (getF a "workout") "totals") "calories")
     then [num (getF (getF (getF a "workout") "totals") "calories") (.fin 0)] else [])
  else []

/-- Step 2 candidates from analysis.food.totals (calories first, as in the
source). -/
def foodCands (a : JSVal) : List JSNum :=
  if truthy (getF a "food") ∧ truthy (getF (getF a "food") "totals") then
    (if nonNullish (getF (getF (getF a "food") "totals") "calories")
     then [num (getF (getF (getF a "food") "totals") "calories") (.fin 0)] else []) ++
    (if nonNullish (getF (getF (getF a "food") "totals") "calories_burned")
     then [num (getF (getF (getF a "food") "totals") "calories_burned") (.fin 0)] else [])
  else []

/-- Step 3 candidates: the three detail sums, pushed only when positive. -/
def sumCands (a : JSVal) : List JSNum :=
  (if (trySumDetails sumKeys (getF a "details")).gtZero
   then [trySumDetails sumKeys (getF a "details")] else []) ++
  (if (trySumDetails sumKeys (getF (getF a "workout") "details")).gtZero
   then [trySumDetails sumKeys (getF (getF a "workout") "details")] else []) ++
  (if (trySumDetails sumKeys (getF (getF a "food") "details")).gtZero
   then [trySumDetails sumKeys (getF (getF a "food") "details")] else [])

/-- The seenNumbers list, in the order the source pushes candidates.
Step 3 guards access to analysis.workout.details behind truthiness of
analysis.workout in the source (the and-expression); when analysis.workout
is falsy the sum is over undefined, i.e. 0, which getF reproduces. -/
def seenNumbersOf (a : JSVal) : List JSNum :=
  totalsCands a ++ workoutCands a ++ foodCands a ++ sumCands a

/-- The positive finite candidates (filter isFinite and greater than zero),
projected to their rational values.  num with a finite default never
produces NaN or an infinity from the resolver's call sites, so the
projection is lossless; the filter is verbatim from the source. -/
def positivesOf (a : JSVal) : List ℚ :=
  (seenNumbersOf a).filterMap fun n =>
    match n with
    | .fin q => if 0 < q then some q else none
    | _ => none

/-- Replaces the first comma of the matched token with a dot, modelling
String.replace with a string pattern. -/
def commaToDot : List Char → List Char
  | [] => []
  | ',' :: r => '.' :: r
  | c :: r => c :: commaToDot r

/-- Leftmost match of the last-resort regex: a run of 2 to 5 digits with an
optional [.,]digits suffix, greedy, scanning left to right.  Returns the
matched token. -/
def firstNumToken : List Char → Option (List Char)
  | [] => none
  | c :: cs =>
    if c.isDigit && (match cs with | d :: _ => d.isDigit | [] => false) then
      let run := (c :: cs).takeWhile Char.isDigit
      let rest := (c :: cs).dropWhile Char.isDigit
      let taken := run.take 5
      let rest2 := run.drop 5 ++ rest
      let fracPart : List Char :=
        match rest2 with
        | s :: more =>
          if s = '.' ∨ s = ',' then
            let fs := more.takeWhile Char.isDigit
            if fs.isEmpty then [] else s :: fs
          else []
        | [] => []
      some (taken ++ fracPart)
    else firstNumToken cs

/-- The replace of a literal backslash followed by a run of s characters
with one space (the source regex escapes its backslash, so it does not
match whitespace), applied globally left to right. -/
def replBS : List Char → List Char
  | [] => []
  | c :: rest =>
    if c == '\\' && (match rest with | 's' :: _ => true | _ => false)
    then ' ' :: replBS (rest.dropWhile (· = 's'))
    else c :: replBS rest
termination_by l => l.length
decreasing_by
  · simp only [List.length_cons]
    exact Nat.lt_succ_of_le (List.dropWhile_suffix _).length_le
  · simp

/-- The last-resort scan: serialize, collapse the backslash-s artifacts,
find the first 2-5 digit token, round it, and keep it only when finite and
positive.  The none branch of the serialization is unreachable at the call
site (the resolver already guarded to objects). -/
def fallbackScan (a : JSVal) : JSNum :=
  match jsonStringify a with
  | none => .fin 0
  | some s =>
    match firstNumToken (replBS s.data) with
    | none => .fin 0
    | some tok =>
      let t := JSNum.round (strToNumber ⟨commaToDot tok⟩)
      if t.isFinite ∧ t.gtZero then t else .fin 0

/-- The maximum of a nonempty list, as Math.max over spread arguments. -/
def listMax (p : ℚ) (ps : List ℚ) : ℚ := ps.foldl max p

/-- extractCaloriesFromAnalysis: guard to truthy objects, gather the
candidate numbers, and either round the maximal positive candidate or fall
back to the serialized-record scan.  Total, so the function provably never
throws. -/
def extractCaloriesFromAnalysis (a : JSVal) : JSNum :=
  if truthy a ∧ isObjType a then
    match positivesOf a with
    | p :: ps => .fin ((jsRoundQ (listMax p ps) : ℤ) : ℚ)
    | [] => fallbackScan a
  else .fin 0

/-! ### The reply composer (src/index.js lines 897-958) -/

/-- The fixed apology string, built without a literal quote character. -/
def apologyText : String :=
  "Sorry, I couldn" ++ ⟨[Char.ofNat 39]⟩ ++ "t understand that."

/-- The .length property used by the assumptions guard: arrays and strings
have a numeric length, and a plain object may carry a length field. -/
def lengthProp (v : JSVal) : JSVal :=
  match v with
  | .varr xs => .vnum (.fin xs.length)
  | .vstr s => .vnum (.fin s.length)
  | .vobj fs => (fs.lookup "length").getD .vundefined
  | _ => .vundefined

/-- One bullet line of the workout reply.  none models the TypeError thrown
when a truthy-length assumptions value is not an array (join on it). -/
def workoutLine (d : JSVal) : Option String :=
  let act := jsOr (getOpt d "activity") (.vstr "Activity")
  let mins := toNumber (jsOr (getOpt d "duration_min") (.vnum (.fin 0)))
  let kcal := JSNum.round (toNumber (jsOr (getOpt d "calories_burned") (.vnum (.fin 0))))
  let iv := getOpt d "intensity"
  let intensity := if truthy iv && !(isStr iv "unknown") then ", " ++ jsToString iv else ""
  let conf :=
    if nonNullish (getOpt d "confidence")
    then " (conf: " ++ jsToString (getOpt d "confidence") ++ ")" else ""
  let av := getOpt d "assumptions"
  let lv := match av with | .vnull => JSVal.vundefined | .vundefined => JSVal.vundefined | _ => lengthProp av
  let assumptionsPart : Option String :=
    if truthy lv then (jsJoin av "; ").map (fun j => "\n   assumptions: " ++ j)
    else some ""
  assumptionsPart.map fun ap =>
    "• " ++ jsToString act ++ intensity ++ " — " ++ numToString mins ++ " min ≈ " ++
    numToString kcal ++ " kcal" ++ conf ++ ap

/-- The reduce computing the workout total; d.calories_burned is accessed
without optional chaining, so a null or undefined element throws (none). -/
def workoutTotalStep (acc : Option JSNum) (d : JSVal) : Option JSNum :=
  acc.bind fun s => (strictGet d "calories_burned").map fun cv => s.add (toNumber cv).orZero

/-- Sequencing of the per-line options (a thrown line aborts the reply). -/
def optList : List (Option String) → Option (List String)
  | [] => some []
  | o :: os => o.bind fun s => (optList os).map fun ss => s :: ss

/-- The workout branch of the composer. -/
def buildWorkoutReply (details : List JSVal) : Option String :=
  (details.foldl workoutTotalStep (some (.fin 0))).bind fun total =>
  (optList (details.map workoutLine)).map fun lines =>
    "Workout:\n" ++ joinSep "\n" lines ++ "\n" ++
    "Total estimated calories: " ++ numToString total.round ++ "."

/-- The per-item data of the food branch: the rendered bullet line and the
rounded kcal/protein/fat/carbs values that feed the running totals. -/
def foodLine (i : JSVal) : String × JSNum × JSNum × JSNum × JSNum :=
  let name := jsOr (getOpt i "item") (.vstr "Item")
  let qty := toNumber (jsOr (getOpt i "quantity") (.vnum (.fin 0)))
  let unit := jsOr (getOpt i "unit") (.vstr "")
  let kcal := JSNum.round (toNumber (jsOr (getOpt i "calories") (.vnum (.fin 0))))
  let protein := JSNum.round (toNumber (jsOr (getOpt (getOpt i "macros") "protein") (.vnum (.fin 0))))
  let fat := JSNum.round (toNumber (jsOr (getOpt (getOpt i "macros") "fat") (.vnum (.fin 0))))
  let carbs := JSNum.round (toNumber (jsOr (getOpt (getOpt i "macros") "carbs") (.vnum (.fin 0))))
  let portion :=
    if qty.truthy && truthy unit then " (" ++ numToString qty ++ " " ++ jsToString unit ++ ")"
    else if qty.truthy then " (" ++ numToString qty ++ ")"
    else ""
  ("• " ++ jsToString name ++ portion ++ " — " ++ numToString kcal ++ " kcal, P:" ++
     numToString protein ++ "g, F:" ++ numToString fat ++ "g, C:" ++ numToString carbs ++ "g",
   kcal, protein, fat, carbs)

/-- The fixed daily-reference block appended to every food reply. -/
def referenceBlock : String :=
  "\n\n*Healthy Daily Reference* (average adult):\nCalories: ~2000 kcal\nProtein: ~75g\nFat: ~65g\nCarbs: ~250g"

/-- The food branch of the composer: bullet lines plus totals accumulated
from the per-item rounded values (never from record-level totals). -/
def buildFoodReply (details : List JSVal) : String :=
  let parts := details.map foodLine
  let lines := parts.map Prod.fst
  let totC := parts.foldl (fun s p => s.add p.2.1) (.fin 0)
  let totP := parts.foldl (fun s p => s.add p.2.2.1) (.fin 0)
  let totF := parts.foldl (fun s p => s.add p.2.2.2.1) (.fin 0)
  let totCb := parts.foldl (fun s p => s.add p.2.2.2.2) (.fin 0)
  let summary :=
    "Totals — Calories: " ++ numToString totC ++ ", Protein: " ++ numToString totP ++
    "g, Fat: " ++ numToString totF ++ "g, Carbs: " ++ numToString totCb ++ "g"
  if lines.isEmpty then "Food:\n" ++ summary ++ referenceBlock
  else "Food:\n" ++ joinSep "\n" lines ++ "\n" ++ summary ++ referenceBlock

/-- The details array as used by both branches: Array.isArray(x) ? x : []. -/
def detailsArr (a : JSVal) : List JSVal :=
  match getF a "details" with
  | .varr xs => xs
  | _ => []

/-- buildReplyForAnalysis: apology for falsy input or falsy type, the
workout branch on the exact type string, and the food branch for every
other truthy type. -/
def buildReplyForAnalysis (analysis : JSVal) : Option String :=
  if !truthy analysis || !truthy (getF analysis "type") then some apologyText
  else if isStr (getF analysis "type") "workout" then buildWorkoutReply (detailsArr analysis)
  else some (buildFoodReply (detailsArr analysis))

/-! ### The image+caption reconciler merge (src/index.js lines 1766-1822)

The merge manipulates items only through their name, assumption list and
confidence; MItem carries exactly those (vision items reach the merge
through the normalization at lines 1750-1764, which guarantees a string
item, a rational confidence and a string assumption list; caption items go
through the text extractor and the caption post-processing first). -/

/-- An item as seen by the merge loop. -/
structure MItem where
  item : String
  assumptions : List String
  confidence : ℚ
deriving DecidableEq, Repr

/-- Lowercasing of a character list (ASCII, which is all that survives the
filter that follows). -/
def lowerChars (cs : List Char) : List Char := cs.map Char.toLower

/-- normalizeName: lower-case, strip everything but a-z, 0-9 and
whitespace, trim. -/
def normalizeName (s : String) : String :=
  ⟨trimChars ((lowerChars s.data).filter fun c =>
    (decide ('a' ≤ c) && decide (c ≤ 'z')) || c.isDigit || c.isWhitespace)⟩

/-- The token list of a normalized name: split on whitespace runs, dropping
empty pieces (the filter(Boolean) of the source; on trimmed names the
unfiltered split used at the append site produces the same tokens). -/
def nameTokens (s : String) : List String :=
  (splitWS s.data).filter fun t => t != ""
where
  /-- Splits a character list at whitespace characters. -/
  splitWS : List Char → List String
    | [] => [""]
    | c :: cs =>
      if c.isWhitespace then "" :: splitWS cs
      else
        match splitWS cs with
        | [] => [⟨[c]⟩]
        | t :: ts => (⟨[c]⟩ ++ t) :: ts

/-- Prefix test on character lists. -/
def hasPrefixCL : List Char → List Char → Bool
  | _, [] => true
  | [], _ :: _ => false
  | c :: cs, p :: ps => c == p && hasPrefixCL cs ps

/-- Substring test on character lists (String.prototype.includes). -/
def hasSubCL : List Char → List Char → Bool
  | [], ps => ps.isEmpty
  | c :: cs, ps => hasPrefixCL (c :: cs) ps || hasSubCL cs ps

/-- The three widening tests of the merge, in source order: containment
either way, then shared-token overlap.  Used both for the conflict test
against a seen name and for locating the merged item to annotate. -/
def conflictsWith (s vn : String) : Bool :=
  hasSubCL s.data vn.data || hasSubCL vn.data s.data ||
    (nameTokens s).any fun tok => (nameTokens vn).contains tok

/-- Set.add on the insertion-ordered seen-name list. -/
def seenAdd (seen : List String) (n : String) : List String :=
  if seen.contains n then seen else seen ++ [n]

/-- Order-preserving deduplication, as Array.from(new Set(list)): fold the
insertion-ordered set-add over the list. -/
def dedupFirst (l : List String) : List String := l.foldl seenAdd []

/-- The caption loop: push every caption item whose normalized name is
nonempty and record the name. -/
def captionStep (st : List MItem × List String) (c : MItem) : List MItem × List String :=
  let n := normalizeName c.item
  if n = "" then st
  else (st.1 ++ [c], seenAdd st.2 n)

/-- The conflict branch: merge the vision item's assumptions (deduplicated)
into the first already-merged item that matches, and append the
vision_conf marker there. -/
def visionMark (m : MItem) (v : MItem) : MItem :=
  let withA :=
    if v.assumptions.isEmpty then m
    else { m with assumptions := dedupFirst (m.assumptions ++ v.assumptions) }
  { withA with
      assumptions := withA.assumptions ++
        ["vision_conf:" ++ numToString (JSNum.orZero (.fin v.confidence))] }

/-- Walks the merged list for the first item matching the conflicting
vision name and annotates it. -/
def appendToMatch : List MItem → MItem → String → List MItem
  | [], _, _ => []
  | m :: ms, v, vn =>
    let mName := normalizeName m.item
    if mName != "" && conflictsWith mName vn then visionMark m v :: ms
    else m :: appendToMatch ms v vn

/-- The vision loop body: skip empty names, test the seen-name set with the
widening tests, then either annotate the first matching merged item or
append the vision item as a new entry. -/
def visionStep (st : List MItem × List String) (v : MItem) : List MItem × List String :=
  let vn := normalizeName v.item
  if vn = "" then st
  else if st.2.any (fun s => conflictsWith s vn) then (appendToMatch st.1 v vn, st.2)
  else (st.1 ++ [v], seenAdd st.2 vn)

/-- The full merge state after both loops. -/
def mergeState (caps vis : List MItem) : List MItem × List String :=
  vis.foldl visionStep (caps.foldl captionStep ([], []))

/-- The merged item list handed to the totals computation. -/
def mergeItems (caps vis : List MItem) : List MItem := (mergeState caps vis).1

/-! ### The extractor output normalizations (src/index.js lines 473-487,
808-822 and 1750-1764) -/

/-- A normalized food detail.  The text and image extractors produce
exactly these fields (assumptions are carried only by the vision-path
variant below). -/
structure NormItem where
  item : JSVal
  quantity : JSNum
  unit : JSVal
  calories : JSNum
  protein : JSNum
  fat : JSNum
  carbs : JSNum
  brand : JSVal
  source : JSVal
  confidence : JSNum

/-- The repeated idiom Number(d?.k ?? 0) || 0. -/
def coerceNumField (d : JSVal) (k : String) : JSNum :=
  (toNumber (nullish (getOpt d k) (.vnum (.fin 0)))).orZero

/-- The macros variant Number(d?.macros?.k ?? 0) || 0. -/
def coerceMacroField (d : JSVal) (k : String) : JSNum :=
  (toNumber (nullish (getOpt (getOpt d "macros") k) (.vnum (.fin 0)))).orZero

/-- The confidence clamp Math.max(0, Math.min(1, Number(d?.confidence ?? 0))) || 0. -/
def coerceConfidence (d : JSVal) : JSNum :=
  (JSNum.maxB (.fin 0)
    (JSNum.minB (.fin 1) (toNumber (nullish (getOpt d "confidence") (.vnum (.fin 0)))))).orZero

/-- The detail normalization shared verbatim by the text extractor (lines
474-487) and the image extractor (lines 809-822). -/
def normalizeDetail (d : JSVal) : NormItem :=
  { item := nullish (getOpt d "item") (.vstr "")
    quantity := coerceNumField d "quantity"
    unit := nullish (getOpt d "unit") (.vstr "")
    calories := coerceNumField d "calories"
    protein := coerceMacroField d "protein"
    fat := coerceMacroField d "fat"
    carbs := coerceMacroField d "carbs"
    brand := nullish (getOpt d "brand") (.vstr "")
    source := nullish (getOpt d "source") (.vstr "")
    confidence := coerceConfidence d }

/-- A normalized vision-path detail (lines 1750-1764): item is forced to a
string, source defaults to vision, and assumptions are coerced to a list. -/
structure NormItemV extends NormItem where
  assumptions : List JSVal

/-- The vision-path defensive normalization. -/
def normalizeVisionDetail (d : JSVal) : NormItemV :=
  { item := .vstr (jsToString (nullish (getOpt d "item") (.vstr "")))
    quantity := coerceNumField d "quantity"
    unit := nullish (getOpt d "unit") (.vstr "")
    calories := coerceNumField d "calories"
    protein := coerceMacroField d "protein"
    fat := coerceMacroField d "fat"
    carbs := coerceMacroField d "carbs"
    brand := nullish (getOpt d "brand") (.vstr "")
    source := nullish (getOpt d "source") (.vstr "vision")
    confidence := coerceConfidence d
    assumptions :=
      match getOpt d "assumptions" with
      | .varr xs => xs
      | a => if truthy a then [.vstr (jsToString a)] else [] }

/-! ### The media fetcher download loop (src/index.js lines 1163-1223) -/

/-- The outcome of one download attempt: an HTTP status (validateStatus
accepts everything, so statuses never throw) or a network exception. -/
inductive DownloadResp where
  | status (code : ℕ)
  | netError

/-- The observable behaviour of the download loop: the attempts made (index
and whether the bearer credential was attached), the backoff delays slept
in milliseconds, and the index of the successful attempt, if any. -/
structure FetchTrace where
  tries : List (ℕ × Bool)
  delays : List ℚ
  success : Option ℕ
deriving Repr

/-- The failure continuation of one loop iteration: record the attempt
with its auth flag, then the backoff sleep.  The source increments attempt
first and then sleeps base * 2 ^ attempt, so the delay recorded after
failed attempt att is base * 2 ^ (att + 1). -/
def failCons (att : ℕ) (base : ℚ) (rest : FetchTrace) : FetchTrace :=
  ⟨(att, decide (0 < att)) :: rest.tries, base * 2 ^ (att + 1) :: rest.delays, rest.success⟩

/-- The while loop, one recursive step per iteration; fuel counts the
remaining iterations (maxRetries + 1 - attempt); useAuth is attempt > 0. -/
def fetchGo (resp : ℕ → DownloadResp) (base : ℚ) : ℕ → ℕ → FetchTrace
  | 0, _ => ⟨[], [], none⟩
  | fuel + 1, att =>
    match resp att with
    | .status code =>
      if 200 ≤ code ∧ code < 300 then ⟨[(att, decide (0 < att))], [], some att⟩
      else failCons att base (fetchGo resp base fuel (att + 1))
    | .netError => failCons att base (fetchGo resp base fuel (att + 1))

/-- The download phase of fetchMetaMediaBytes, starting at attempt 0 with
the loop bound attempt ≤ maxRetries. -/
def fetchMediaTrace (resp : ℕ → DownloadResp) (maxRetries : ℕ) (base : ℚ) : FetchTrace :=
  fetchGo resp base (maxRetries + 1) 0

/-- The error message thrown when every attempt failed (the spec's
MediaUnavailable). -/
def mediaUnavailableMsg : String := "Failed to download media after retries."

/-- The result of the download phase: the successful attempt index, or the
MediaUnavailable error. -/
def fetchMediaResult (resp : ℕ → DownloadResp) (maxRetries : ℕ) (base : ℚ) :
    Except String ℕ :=
  match (fetchMediaTrace resp maxRetries base).success with
  | some att => .ok att
  | none => .error mediaUnavailableMsg

/-! ### The classifiers (src/index.js lines 1568-1592 and 280-297) -/

/-- The defensive input coercion (text || toString then trim) performed
before the text classifier consults the inference service. -/
def trimmedInput (text : JSVal) : String :=
  ⟨trimChars (jsToString (jsOr text (.vstr ""))).data⟩

/-- The content post-processing of the text classifier: String(c || "")
lower-cased. -/
def loweredContent (content : JSVal) : String :=
  ⟨lowerChars (jsToString (jsOr content (.vstr ""))).data⟩

/-- classifyFoodOrWorkoutFromText, with the inference call abstracted as an
oracle returning the message content (ok) or throwing (error).  The
defensive input coercion and the empty-input early return happen before
the oracle is consulted. -/
def classifyFoodOrWorkoutFromText (text : JSVal) (oracle : Except Unit JSVal) : String :=
  if trimmedInput text = "" then "food"
  else
    match oracle with
    | .error _ => "food"
    | .ok content =>
      if hasSubCL (loweredContent content).data "workout".data then "workout" else "food"

/-- The content post-processing of the image classifier: the falsy default
is the string food, and trimming precedes lower-casing. -/
def loweredContentImg (content : JSVal) : String :=
  ⟨lowerChars (trimChars (jsToString (jsOr content (.vstr "food"))).data)⟩

/-- classifyFoodOrWorkoutFromImage: same containment rule on its
post-processed content. -/
def classifyFoodOrWorkoutFromImage (oracle : Except Unit JSVal) : String :=
  match oracle with
  | .error _ => "food"
  | .ok content =>
    if hasSubCL (loweredContentImg content).data "workout".data then "workout" else "food"

/-! ### The audio preprocessor (src/index.js lines 340-354) -/

/-- The -af filter chain: optional denoise (only when a noise-profile model
is configured and present), then silence trim and loudness normalization. -/
def buildAudioFilter (modelPath : Option String) : String :=
  let denoise := match modelPath with | some m => "arnndn=m=" ++ m ++ "," | none => ""
  "\"" ++ denoise ++ "silenceremove=1:0:-50dB,loudnorm=i=-22:tp=-2:lra=7\""

/-- The full ffmpeg invocation string. -/
def buildFfmpegCmd (rawPath cleanedPath : String) (modelPath : Option String) : String :=
  "ffmpeg -y -hide_banner -loglevel error -i \"" ++ rawPath ++ "\" -af " ++
    buildAudioFilter modelPath ++ " -ac 1 -ar 16000 \"" ++ cleanedPath ++ "\""

/-- preprocessAudio over an execution oracle: on success the cleaned path
is handed on, on any failure the original raw path is returned (the paths
stand for the byte streams they address; the raw file is never written by
this function, so the bytes behind rawPath are unchanged). -/
def preprocessAudio (rawPath cleanedPath : String) (modelPath : Option String)
    (exec : String → Except String Unit) : String :=
  match exec (buildFfmpegCmd rawPath cleanedPath modelPath) with
  | .ok _ => cleanedPath
  | .error _ => rawPath

/-! ### Concrete records used by the claims and their tests -/

/-- The spec test record: totals 450, details 100 + 120. -/
def ex450 : JSVal :=
  .vobj [("totals", .vobj [("calories", .vnum (.fin 450))]),
         ("details", .varr [.vobj [("calories", .vnum (.fin 100))],
                            .vobj [("calories", .vnum (.fin 120))]])]

/-- A record whose maximal positive candidate is the fractional 450.2. -/
def exFrac : JSVal :=
  .vobj [("totals", .vobj [("calories", .vnum (.fin (4502 / 10)))]),
         ("details", .varr [.vobj [("calories", .vnum (.fin 100))],
                            .vobj [("calories", .vnum (.fin 120))]])]

/-- A record with a populated totals object and an empty details list. -/
def exFoodTotalsOnly : JSVal :=
  .vobj [("type", .vstr "food"),
         ("totals", .vobj [("calories", .vnum (.fin 999)),
                           ("confidence", .vnum (.fin 1))]),
         ("details", .varr [])]

/-- The workout analogue of exFoodTotalsOnly. -/
def exWorkoutTotalsOnly : JSVal :=
  .vobj [("type", .vstr "workout"),
         ("totals", .vobj [("calories_burned", .vnum (.fin 500))]),
         ("details", .varr [])]

/-- A record with a truthy but unrecognized type tag. -/
def exUnknownType : JSVal := .vobj [("type", .vstr "note")]

/-- The caption item of the spec's token-overlap merge test. -/
def bananaCap : MItem := ⟨"banana smoothie", [], 95 / 100⟩

/-- The vision item of the spec's token-overlap merge test. -/
def smoothieVis : MItem := ⟨"smoothie", ["estimated"], 8 / 10⟩

/-- The caption item of the spec's no-conflict merge test. -/
def dalCap : MItem := ⟨"dal", [], 9 / 10⟩

/-- The vision item of the spec's no-conflict merge test. -/
def riceVis : MItem := ⟨"rice", [], 8 / 10⟩

/-- A vision pair in which the second item overlaps only the first vision
item, not any caption item. -/
def applePairVis : List MItem := [⟨"apple pie", [], 7 / 10⟩, ⟨"apple", ["seen whole"], 6 / 10⟩]

/-! ## Theorems

Helper lemmas come first; the per-claim theorems (and their witnesses and
counterexamples) follow, one per claim of the specification review. -/

/-- A finite number is not NaN. -/
theorem JSNum.isFinite_ne_nan {n : JSNum} (h : n.isFinite = true) : n ≠ .nan := by
  cases n <;> simp_all [JSNum.isFinite]

/-- orZero is the identity on finite numbers (0 maps to 0). -/
theorem JSNum.orZero_fin (q : ℚ) : (JSNum.fin q).orZero = .fin q := by
  simp only [JSNum.orZero, JSNum.truthy]
  split <;> simp_all

/-- Applying orZero never yields NaN. -/
theorem JSNum.orZero_ne_nan (n : JSNum) : n.orZero ≠ .nan := by
  cases n with
  | fin q => rw [JSNum.orZero_fin]; simp
  | nan => simp [JSNum.orZero, JSNum.truthy]
  | inf p => simp [JSNum.orZero, JSNum.truthy]

/-- The confidence clamp always produces a finite value in [0, 1]. -/
theorem clamp_confidence (n : JSNum) :
    ∃ q : ℚ, (JSNum.maxB (.fin 0) (JSNum.minB (.fin 1) n)).orZero = .fin q ∧ 0 ≤ q ∧ q ≤ 1 := by
  cases n with
  | fin a =>
    refine ⟨max 0 (min 1 a), ?_, le_max_left _ _, ?_⟩
    · simp [JSNum.minB, JSNum.maxB, JSNum.orZero_fin]
    · exact max_le (by norm_num) (min_le_left _ _)
  | nan => exact ⟨0, by simp [JSNum.minB, JSNum.maxB, JSNum.orZero, JSNum.truthy], le_refl _, by norm_num⟩
  | inf p =>
    cases p
    · exact ⟨0, by simp [JSNum.minB, JSNum.maxB, JSNum.orZero, JSNum.truthy], le_refl _, by norm_num⟩
    · refine ⟨1, ?_, by norm_num, le_refl _⟩
      have h1 : JSNum.minB (.fin 1) (.inf true) = .fin 1 := by simp [JSNum.minB]
      rw [h1]
      have h2 : JSNum.maxB (.fin 0) (.fin 1) = .fin (max 0 1) := by simp [JSNum.maxB]
      rw [h2, JSNum.orZero_fin]
      norm_num

/-- Prefix test agrees with List.IsPrefix. -/
theorem hasPrefixCL_iff : ∀ {l p : List Char}, hasPrefixCL l p = true ↔ p <+: l
  | _, [] => by simp [hasPrefixCL]
  | [], _ :: _ => by simp [hasPrefixCL]
  | c :: cs, p :: ps => by
    simp only [hasPrefixCL, Bool.and_eq_true, beq_iff_eq, List.cons_prefix_cons]
    exact and_congr (by constructor <;> (intro h; exact h.symm)) hasPrefixCL_iff

/-- Substring test agrees with List.IsInfix. -/
theorem hasSubCL_iff : ∀ {l p : List Char}, hasSubCL l p = true ↔ p <:+: l
  | [], p => by
    simp only [hasSubCL, List.isEmpty_iff]
    constructor
    · intro h; simp [h]
    · intro h; simpa using List.sublist_nil.mp h.sublist
  | c :: cs, p => by
    simp only [hasSubCL, Bool.or_eq_true, hasPrefixCL_iff, hasSubCL_iff (l := cs),
      List.infix_cons_iff]

/-- C7 — the classifiers return workout exactly when the lower-cased
inference result contains the substring workout, and default to food on
any inference failure (the text classifier also short-circuits to food on
empty input without consulting the inference service). -/
theorem classifier_workout_substring_rule :
    (∀ t v, trimmedInput t ≠ "" →
      (classifyFoodOrWorkoutFromText t (.ok v) = "workout" ↔
        "workout".data <:+: (loweredContent v).data)) ∧
    (∀ t v, trimmedInput t ≠ "" →
      classifyFoodOrWorkoutFromText t (.ok v) ≠ "workout" →
      classifyFoodOrWorkoutFromText t (.ok v) = "food") ∧
    (∀ t, classifyFoodOrWorkoutFromText t (.error ()) = "food") ∧
    (∀ t, trimmedInput t = "" → ∀ o, classifyFoodOrWorkoutFromText t o = "food") ∧
    (∀ v, classifyFoodOrWorkoutFromImage (.ok v) = "workout" ↔
      "workout".data <:+: (loweredContentImg v).data) ∧
    classifyFoodOrWorkoutFromImage (.error ()) = "food" := by
  refine ⟨?_, ?_, ?_, ?_, ?_, rfl⟩
  · intro t v ht
    simp only [classifyFoodOrWorkoutFromText, if_neg ht]
    constructor
    · intro h
      by_contra hc
      rw [← hasSubCL_iff] at hc
      simp only [Bool.not_eq_true] at hc
      simp [hc] at h
    · intro h
      rw [← hasSubCL_iff] at h
      simp [h]
  · intro t v ht h
    simp only [classifyFoodOrWorkoutFromText, if_neg ht] at h ⊢
    split at h <;> simp_all
  · intro t
    simp only [classifyFoodOrWorkoutFromText]
    split <;> rfl
  · intro t ht o
    simp [classifyFoodOrWorkoutFromText, ht]
  · intro v
    simp only [classifyFoodOrWorkoutFromImage]
    constructor
    · intro h
      by_contra hc
      rw [← hasSubCL_iff] at hc
      simp only [Bool.not_eq_true] at hc
      simp [hc] at h
    · intro h
      rw [← hasSubCL_iff] at h
      simp [h]

/-- C7 witness: the rule applied to a concrete call where the inference
result is the string Workout and the input is nonempty. -/
theorem classifier_workout_substring_rule_witness :
    classifyFoodOrWorkoutFromText (.vstr "ran 5k this morning") (.ok (.vstr "Workout")) = "workout" :=
  (classifier_workout_substring_rule.1 (.vstr "ran 5k this morning") (.vstr "Workout")
    (by with_unfolding_all decide)).mpr (by with_unfolding_all decide)

/-- C8 — whenever the ffmpeg invocation fails, the audio preprocessor
returns the original raw stream (its path) unchanged rather than raising;
and on every outcome it hands downstream either the raw or the cleaned
stream, never nothing. -/
theorem preprocess_audio_degrades_to_raw :
    (∀ raw cleaned mp (exec : String → Except String Unit) msg,
      exec (buildFfmpegCmd raw cleaned mp) = .error msg →
      preprocessAudio raw cleaned mp exec = raw) ∧
    (∀ raw cleaned mp (exec : String → Except String Unit),
      preprocessAudio raw cleaned mp exec = raw ∨
      preprocessAudio raw cleaned mp exec = cleaned) := by
  constructor
  · intro raw cleaned mp exec msg h
    simp [preprocessAudio, h]
  · intro raw cleaned mp exec
    simp only [preprocessAudio]
    split
    · right; rfl
    · left; rfl

/-- C8 witness: a concrete failing invocation returns the raw path. -/
theorem preprocess_audio_degrades_to_raw_witness :
    preprocessAudio "/tmp/1-raw.audio" "/tmp/1-cleaned.wav" none (fun _ => .error "spawn ffmpeg ENOENT") = "/tmp/1-raw.audio" :=
  preprocess_audio_degrades_to_raw.1 _ _ none _ "spawn ffmpeg ENOENT" rfl

/-- C9 — the lenient coercion num returns either its default or a finite
number, hence with a finite default it is always finite and never NaN (it
is a total function, so it cannot throw); and the unit-bearing string
250 kcal coerces to 250. -/
theorem num_finite_or_default :
    (∀ x d, num x d = d ∨ (num x d).isFinite = true) ∧
    (∀ x d, d.isFinite = true → (num x d).isFinite = true ∧ num x d ≠ .nan) ∧
    num (.vstr "250 kcal") (.fin 0) = .fin 250 := by
  have base : ∀ x d, num x d = d ∨ (num x d).isFinite = true := by
    intro x d
    cases x
    case vnum n =>
      simp only [num]
      split
      · right; assumption
      · left; rfl
    case vstr s =>
      simp only [num]
      split
      · right; assumption
      · left; rfl
    all_goals exact Or.inl rfl
  refine ⟨base, ?_, by with_unfolding_all decide⟩
  intro x d hd
  have hfin : (num x d).isFinite = true := by
    rcases base x d with h | h
    · rw [h]; exact hd
    · exact h
  exact ⟨hfin, JSNum.isFinite_ne_nan hfin⟩

/-- C9 witness: a garbage string with a finite default yields a finite
non-NaN result. -/
theorem num_finite_or_default_witness :
    (num (.vstr "garbage!!") (.fin 5)).isFinite = true ∧ num (.vstr "garbage!!") (.fin 5) ≠ .nan :=
  num_finite_or_default.2.1 (.vstr "garbage!!") (.fin 5) rfl

/-- C5 counterexample: the normalization passes a negative calorie value
through unchanged (the claim of finite non-negative numeric fields fails),
and a string spelling Infinity yields an infinite calorie value. -/
theorem normalize_detail_negative_passthrough :
    (normalizeDetail (.vobj [("calories", .vnum (.fin (-100)))])).calories = .fin (-100) ∧
    ¬ ((0 : ℚ) ≤ -100) ∧
    (normalizeDetail (.vobj [("calories", .vstr "Infinity")])).calories = .inf true ∧
    (JSNum.inf true).isFinite = false := by
  refine ⟨by with_unfolding_all decide, by norm_num, by with_unfolding_all decide, rfl⟩

/-- C5 (amended) — across the text/image normalization and the vision-path
normalization, every numeric field is a number with NaN coerced away
(absent or non-numeric input becomes 0) and confidence is clamped into
[0, 1]; negative and infinite inputs, however, pass through, so finiteness
and non-negativity are not enforced.  Shown concretely: the empty detail
normalizes with every numeric field 0. -/
theorem normalize_detail_numeric_fields :
    (∀ d, (normalizeDetail d).quantity ≠ .nan ∧ (normalizeDetail d).calories ≠ .nan ∧
      (normalizeDetail d).protein ≠ .nan ∧ (normalizeDetail d).fat ≠ .nan ∧
      (normalizeDetail d).carbs ≠ .nan ∧
      ∃ q : ℚ, (normalizeDetail d).confidence = .fin q ∧ 0 ≤ q ∧ q ≤ 1) ∧
    (∀ d, (normalizeVisionDetail d).quantity ≠ .nan ∧ (normalizeVisionDetail d).calories ≠ .nan ∧
      (normalizeVisionDetail d).protein ≠ .nan ∧ (normalizeVisionDetail d).fat ≠ .nan ∧
      (normalizeVisionDetail d).carbs ≠ .nan ∧
      ∃ q : ℚ, (normalizeVisionDetail d).confidence = .fin q ∧ 0 ≤ q ∧ q ≤ 1) ∧
    ((normalizeDetail (.vobj [])).quantity = .fin 0 ∧
      (normalizeDetail (.vobj [])).calories = .fin 0 ∧
      (normalizeDetail (.vobj [])).protein = .fin 0 ∧
      (normalizeDetail (.vobj [])).confidence = .fin 0) := by
  refine ⟨?_, ?_, by with_unfolding_all decide⟩
  · intro d
    exact ⟨JSNum.orZero_ne_nan _, JSNum.orZero_ne_nan _, JSNum.orZero_ne_nan _,
      JSNum.orZero_ne_nan _, JSNum.orZero_ne_nan _, clamp_confidence _⟩
  · intro d
    exact ⟨JSNum.orZero_ne_nan _, JSNum.orZero_ne_nan _, JSNum.orZero_ne_nan _,
      JSNum.orZero_ne_nan _, JSNum.orZero_ne_nan _, clamp_confidence _⟩

/-- qFloor agrees with the mathematical floor. -/
theorem qFloor_eq_floor (q : ℚ) : qFloor q = ⌊q⌋ := Rat.floor_def.symm

/-- The floor of a nonnegative rational is nonnegative. -/
theorem qFloor_nonneg {q : ℚ} (h : 0 ≤ q) : 0 ≤ qFloor q := by
  rw [qFloor_eq_floor]
  exact Int.floor_nonneg.mpr h

/-- Math.round of a nonnegative value is nonnegative. -/
theorem jsRoundQ_nonneg {q : ℚ} (h : 0 ≤ q) : 0 ≤ jsRoundQ q :=
  qFloor_nonneg (by linarith)

/-- Math.round fixes integers. -/
theorem jsRoundQ_intCast (z : ℤ) : jsRoundQ (z : ℚ) = z := by
  unfold jsRoundQ
  rw [qFloor_eq_floor, Int.floor_int_add]
  have h0 : ⌊(1 : ℚ) / 2⌋ = 0 := by
    rw [Int.floor_eq_zero_iff, Set.mem_Ico]
    norm_num
  rw [h0, add_zero]

/-- Every member of the positive-candidate list is positive. -/
theorem positivesOf_pos {a : JSVal} {q : ℚ} (h : q ∈ positivesOf a) : 0 < q := by
  simp only [positivesOf, List.mem_filterMap] at h
  obtain ⟨n, _, hn⟩ := h
  cases n with
  | fin r =>
    simp only at hn
    split at hn
    · cases hn; assumption
    · cases hn
  | nan => cases hn
  | inf p => cases hn

/-- The seed is bounded by the running maximum. -/
theorem le_listMax : ∀ (ps : List ℚ) (p : ℚ), p ≤ listMax p ps
  | [], _ => le_refl _
  | a :: ps, p => le_trans (le_max_left p a) (le_listMax ps (max p a))

/-- Every listed value is bounded by the running maximum. -/
theorem listMax_mem_le : ∀ (ps : List ℚ) (p q : ℚ), q ∈ p :: ps → q ≤ listMax p ps := by
  intro ps
  induction ps with
  | nil =>
    intro p q h
    simp only [List.mem_singleton] at h
    exact le_of_eq h
  | cons a ps ih =>
    intro p q h
    have hstep : listMax p (a :: ps) = listMax (max p a) ps := rfl
    rw [hstep]
    rcases List.mem_cons.mp h with rfl | h2
    · exact le_trans (le_max_left q a) (le_listMax ps (max q a))
    · rcases List.mem_cons.mp h2 with rfl | h4
      · exact le_trans (le_max_right p q) (le_listMax ps (max p q))
      · exact ih (max p a) q (List.mem_cons_of_mem _ h4)

/-- The last-resort scan always returns a nonnegative integer. -/
theorem fallbackScan_nonneg (a : JSVal) : ∃ n : ℕ, fallbackScan a = .fin n := by
  unfold fallbackScan
  cases h1 : jsonStringify a with
  | none => exact ⟨0, by simp⟩
  | some s =>
    cases h2 : firstNumToken (replBS s.data) with
    | none => exact ⟨0, by simp [h2]⟩
    | some tok =>
      simp only [h2]
      cases hst : strToNumber ⟨commaToDot tok⟩ with
      | fin q =>
        simp only [hst, JSNum.round]
        split
        next hcond =>
          have hpos : (0 : ℚ) < ((jsRoundQ q : ℤ) : ℚ) := by
            have := hcond.2
            simpa [JSNum.gtZero] using this
          have hz : 0 ≤ jsRoundQ q := by
            have hlt : (0 : ℤ) < jsRoundQ q := by exact_mod_cast hpos
            omega
          refine ⟨(jsRoundQ q).toNat, ?_⟩
          have hcast : (((jsRoundQ q).toNat : ℕ) : ℚ) = ((jsRoundQ q : ℤ) : ℚ) := by
            rw [← Int.cast_natCast, Int.toNat_of_nonneg hz]
          rw [hcast]
        next => exact ⟨0, by simp⟩
      | nan =>
        simp only [hst, JSNum.round]
        split
        next hcond => exact absurd hcond.1 (by simp [JSNum.isFinite])
        next => exact ⟨0, by simp⟩
      | inf p =>
        simp only [hst, JSNum.round]
        split
        next hcond => exact absurd hcond.1 (by simp [JSNum.isFinite])
        next => exact ⟨0, by simp⟩

/-- C2 — the calorie resolver is total (never throws) and always returns a
finite nonnegative integer, and the empty record resolves to 0. -/
theorem extract_calories_safe :
    (∀ v : JSVal, ∃ n : ℕ, extractCaloriesFromAnalysis v = .fin n) ∧
    extractCaloriesFromAnalysis (.vobj []) = .fin 0 := by
  refine ⟨?_, by with_unfolding_all decide⟩
  intro v
  unfold extractCaloriesFromAnalysis
  split
  case isTrue h =>
    cases hp : positivesOf v with
    | nil => exact fallbackScan_nonneg v
    | cons p ps =>
      have hpos : 0 < p := positivesOf_pos (hp ▸ List.mem_cons_self p ps)
      have hmax : 0 < listMax p ps := lt_of_lt_of_le hpos (le_listMax ps p)
      have hr : 0 ≤ jsRoundQ (listMax p ps) := jsRoundQ_nonneg (le_of_lt hmax)
      refine ⟨(jsRoundQ (listMax p ps)).toNat, ?_⟩
      have hcast : (((jsRoundQ (listMax p ps)).toNat : ℕ) : ℚ) =
          ((jsRoundQ (listMax p ps) : ℤ) : ℚ) := by
        rw [← Int.cast_natCast, Int.toNat_of_nonneg hr]
      rw [hcast]
  case isFalse => exact ⟨0, rfl⟩

/-- A truthy totals object with a non-null calories field contributes its
coerced calories value to the candidate list. -/
theorem totals_calories_mem_seen {a : JSVal}
    (h1 : truthy (getF a "totals") = true)
    (h2 : nonNullish (getF (getF a "totals") "calories") = true) :
    num (getF (getF a "totals") "calories") (.fin 0) ∈ seenNumbersOf a := by
  unfold seenNumbersOf totalsCands
  simp only [h1, h2, if_true]
  simp

/-- A positive top-level details sum contributes itself to the candidate
list. -/
theorem details_sum_mem_seen {a : JSVal}
    (h : (trySumDetails sumKeys (getF a "details")).gtZero = true) :
    trySumDetails sumKeys (getF a "details") ∈ seenNumbersOf a := by
  unfold seenNumbersOf sumCands
  simp only [h, if_true]
  simp

/-- A finite positive candidate lands in the positives list. -/
theorem mem_positivesOf {a : JSVal} {n : JSNum} {q : ℚ}
    (hmem : n ∈ seenNumbersOf a) (hn : n = .fin q) (hq : 0 < q) :
    q ∈ positivesOf a := by
  subst hn
  exact List.mem_filterMap.mpr ⟨.fin q, hmem, by simp [hq]⟩

/-- C1 (amended) — whenever both a positive totals-level calorie value and
a positive detail-level calorie sum are present, the resolver returns
Math.round of the maximum of all positive candidates (hence the maximum
itself whenever that maximum is an integer), not their sum; on the spec
test record it returns 450, not the 670 candidate sum. -/
theorem extract_calories_max_of_candidates :
    (∀ (a : JSVal) (ctot dsum : ℚ),
      truthy a = true → isObjType a = true →
      truthy (getF a "totals") = true →
      nonNullish (getF (getF a "totals") "calories") = true →
      num (getF (getF a "totals") "calories") (.fin 0) = .fin ctot → 0 < ctot →
      trySumDetails sumKeys (getF a "details") = .fin dsum → 0 < dsum →
      ∃ p ps, positivesOf a = p :: ps ∧
        ctot ∈ positivesOf a ∧ dsum ∈ positivesOf a ∧
        (∀ q ∈ positivesOf a, q ≤ listMax p ps) ∧
        extractCaloriesFromAnalysis a = .fin ((jsRoundQ (listMax p ps) : ℤ) : ℚ) ∧
        (∀ z : ℤ, listMax p ps = (z : ℚ) →
          extractCaloriesFromAnalysis a = .fin (listMax p ps))) ∧
    extractCaloriesFromAnalysis ex450 = .fin 450 ∧
    extractCaloriesFromAnalysis ex450 ≠ .fin 670 := by
  refine ⟨?_, by with_unfolding_all decide, by with_unfolding_all decide⟩
  intro a ctot dsum htr hobj h1 h2 hnum hctot hsum hdsum
  have hct_mem : ctot ∈ positivesOf a :=
    mem_positivesOf (totals_calories_mem_seen h1 h2) hnum hctot
  have hds_gt : (trySumDetails sumKeys (getF a "details")).gtZero = true := by
    rw [hsum]; simpa [JSNum.gtZero] using hdsum
  have hds_mem : dsum ∈ positivesOf a :=
    mem_positivesOf (details_sum_mem_seen hds_gt) hsum hdsum
  cases hp : positivesOf a with
  | nil => exact absurd (hp ▸ hct_mem) (List.not_mem_nil _)
  | cons p ps =>
    have hext : extractCaloriesFromAnalysis a = .fin ((jsRoundQ (listMax p ps) : ℤ) : ℚ) := by
      unfold extractCaloriesFromAnalysis
      simp [htr, hobj, hp]
    refine ⟨p, ps, rfl, hp ▸ hct_mem, hp ▸ hds_mem, ?_, hext, ?_⟩
    · intro q hq
      exact listMax_mem_le ps p q (hp ▸ hq)
    · intro z hz
      rw [hext, hz, jsRoundQ_intCast]

/-- C1 witness: the rule applied to the spec test record, where the
positive candidates are 450 and the 220 detail sum. -/
theorem extract_calories_max_of_candidates_witness :
    ∃ p ps, positivesOf ex450 = p :: ps ∧
      (450 : ℚ) ∈ positivesOf ex450 ∧ (220 : ℚ) ∈ positivesOf ex450 ∧
      (∀ q ∈ positivesOf ex450, q ≤ listMax p ps) ∧
      extractCaloriesFromAnalysis ex450 = .fin ((jsRoundQ (listMax p ps) : ℤ) : ℚ) ∧
      (∀ z : ℤ, listMax p ps = (z : ℚ) →
        extractCaloriesFromAnalysis ex450 = .fin (listMax p ps)) :=
  extract_calories_max_of_candidates.1 ex450 450 220
    (by with_unfolding_all decide) (by with_unfolding_all decide)
    (by with_unfolding_all decide) (by with_unfolding_all decide)
    (by with_unfolding_all decide) (by with_unfolding_all decide)
    (by with_unfolding_all decide) (by with_unfolding_all decide)

set_option maxRecDepth 3000 in
/-- C1 counterexample: with the fractional totals value 450.2 the resolver
returns 450, which is not the maximum 450.2 of the positive candidates —
the claim as stated (return the maximum itself) fails; only the rounded
maximum is returned. -/
theorem extract_calories_rounds_fractional_max :
    positivesOf exFrac = [4502 / 10, 220] ∧
    extractCaloriesFromAnalysis exFrac = .fin 450 ∧
    JSNum.fin 450 ≠ .fin (4502 / 10) := by
  with_unfolding_all decide

/-- A download attempt outcome that does not count as success: any non-2xx
status, or a network exception. -/
def failedResp (r : DownloadResp) : Prop :=
  match r with
  | .status c => ¬ (200 ≤ c ∧ c < 300)
  | .netError => True

/-- Every recorded attempt carries the bearer credential exactly when its
index is positive. -/
theorem fetchGo_tries_auth (resp : ℕ → DownloadResp) (base : ℚ) :
    ∀ (fuel att : ℕ) (p : ℕ × Bool),
      p ∈ (fetchGo resp base fuel att).tries → p.2 = decide (0 < p.1) := by
  intro fuel
  induction fuel with
  | zero =>
    intro att p hp
    rw [fetchGo] at hp
    exact absurd hp (List.not_mem_nil p)
  | succ n ih =>
    intro att p hp
    rw [fetchGo] at hp
    cases hr : resp att with
    | status code =>
      simp only [hr] at hp
      split at hp
      · simp only [List.mem_singleton] at hp
        subst hp; rfl
      · simp only [failCons, List.mem_cons] at hp
        rcases hp with rfl | hp
        · rfl
        · exact ih (att + 1) p hp
    | netError =>
      simp only [hr] at hp
      simp only [failCons, List.mem_cons] at hp
      rcases hp with rfl | hp
      · rfl
      · exact ih (att + 1) p hp

/-- When every attempt fails, the loop makes one try per fuel unit, sleeps
base * 2 ^ (attempt + 1) after each failed attempt, and ends unsuccessful. -/
theorem fetchGo_all_fail (resp : ℕ → DownloadResp) (base : ℚ)
    (hfail : ∀ i, failedResp (resp i)) :
    ∀ (fuel att : ℕ),
      fetchGo resp base fuel att =
        ⟨(List.range fuel).map (fun k => (att + k, decide (0 < att + k))),
         (List.range fuel).map (fun k => base * 2 ^ (att + k + 1)),
         none⟩ := by
  intro fuel
  induction fuel with
  | zero => intro att; simp [fetchGo]
  | succ n ih =>
    intro att
    have hstep : fetchGo resp base (n + 1) att =
        failCons att base (fetchGo resp base n (att + 1)) := by
      rw [fetchGo]
      cases hr : resp att with
      | status code =>
        have hne := hfail att
        rw [hr] at hne
        simp only [failedResp] at hne
        exact if_neg hne
      | netError => rfl
    rw [hstep, ih (att + 1)]
    simp only [failCons, FetchTrace.mk.injEq]
    refine ⟨?_, ?_, trivial⟩
    · rw [List.range_succ_eq_map, List.map_cons, List.map_map]
      refine congrArg₂ _ (by simp) ?_
      apply List.map_congr_left
      intro k _
      simp only [Function.comp_apply]
      have harith : att + 1 + k = att + Nat.succ k := by omega
      rw [harith]
    · rw [List.range_succ_eq_map, List.map_cons, List.map_map]
      refine congrArg₂ _ (by simp) ?_
      apply List.map_congr_left
      intro k _
      simp only [Function.comp_apply]
      have harith : att + 1 + k + 1 = att + Nat.succ k + 1 := by omega
      rw [harith]

/-- C4 (amended) — attempt 0 omits the bearer credential and every later
attempt includes it; the backoff slept after failed attempt n is
base * 2 ^ (n + 1) (the source increments the counter before computing the
delay), so with the defaults the delays are 600, 1200, 2400, 4800 ms; and
when all 1 + maxRetries attempts fail the fetch ends with the
MediaUnavailable error instead of bytes. -/
theorem fetch_media_retry_policy :
    (∀ (resp : ℕ → DownloadResp) (base : ℚ) (mR : ℕ) (p : ℕ × Bool),
      p ∈ (fetchMediaTrace resp mR base).tries → p.2 = decide (0 < p.1)) ∧
    (∀ (resp : ℕ → DownloadResp) (base : ℚ) (mR : ℕ), (∀ i, failedResp (resp i)) →
      (fetchMediaTrace resp mR base).delays =
        (List.range (mR + 1)).map (fun k => base * 2 ^ (k + 1)) ∧
      (fetchMediaTrace resp mR base).tries.length = mR + 1 ∧
      fetchMediaResult resp mR base = .error mediaUnavailableMsg) ∧
    (fetchMediaTrace (fun _ => .netError) 3 300).delays = [600, 1200, 2400, 4800] := by
  refine ⟨?_, ?_, ?_⟩
  case refine_3 =>
    have h := fetchGo_all_fail (fun _ => .netError) 300 (fun _ => trivial) 4 0
    rw [fetchMediaTrace, h]
    norm_num [List.range_succ]
  · intro resp base mR p hp
    exact fetchGo_tries_auth resp base (mR + 1) 0 p hp
  · intro resp base mR hfail
    have h := fetchGo_all_fail resp base hfail (mR + 1) 0
    refine ⟨?_, ?_, ?_⟩
    · rw [fetchMediaTrace, h]
      simp
    · rw [fetchMediaTrace, h]
      simp
    · rw [fetchMediaResult, fetchMediaTrace, h]

/-- C4 witness: the retry policy applied to the always-failing oracle at
the default configuration. -/
theorem fetch_media_retry_policy_witness :
    (fetchMediaTrace (fun _ => .netError) 3 300).delays =
      (List.range 4).map (fun k => (300 : ℚ) * 2 ^ (k + 1)) ∧
    (fetchMediaTrace (fun _ => .netError) 3 300).tries.length = 4 ∧
    fetchMediaResult (fun _ => .netError) 3 300 = .error mediaUnavailableMsg :=
  fetch_media_retry_policy.2.1 (fun _ => .netError) 300 3 (fun _ => trivial)

/-- C4 counterexample: the delay slept after failed attempt 0 is 600 ms,
not the base * 2 ^ 0 = 300 ms the claim states. -/
theorem fetch_media_first_delay_is_doubled :
    (fetchMediaTrace (fun _ => .netError) 3 300).delays.head? = some 600 ∧
    (600 : ℚ) ≠ 300 * 2 ^ (0 : ℕ) := by
  constructor
  · with_unfolding_all decide
  · norm_num

/-- String concatenation concatenates the character data. -/
theorem strDataAppend (a b : String) : (a ++ b).data = a.data ++ b.data := by
  cases a; cases b; rfl

/-- Every food reply opens with the Food header character. -/
theorem food_reply_head (ds : List JSVal) : (buildFoodReply ds).data.head? = some 'F' := by
  simp only [buildFoodReply]
  split
  · rw [strDataAppend, strDataAppend]; rfl
  · rw [strDataAppend, strDataAppend, strDataAppend, strDataAppend]; rfl

/-- A food reply never equals the apology string: the header characters
differ. -/
theorem food_reply_ne_apology (ds : List JSVal) : buildFoodReply ds ≠ apologyText := by
  intro h
  have h1 := food_reply_head ds
  rw [h] at h1
  have h2 : (apologyText.data).head? = some 'S' := rfl
  exact absurd (h1.symm.trans h2) (by decide)

/-- The zero rational renders as the digit 0. -/
theorem numToString_fin_zero : numToString (.fin 0) = "0" := by
  show qToDecimalString 0 = "0"
  unfold qToDecimalString
  norm_num
  rfl

/-- Math.round fixes 0. -/
theorem round_fin_zero : JSNum.round (.fin 0) = .fin 0 := by
  have h := jsRoundQ_intCast 0
  simp only [Int.cast_zero] at h
  simp [JSNum.round, h]

/-- C10 — the reply composer derives everything it renders from the type
tag and the details array alone, never from the totals object: replies
agree on any two records agreeing on those, and a record with populated
totals but empty details renders with every displayed total equal to 0. -/
theorem build_reply_reads_only_type_and_details :
    (∀ a b : JSVal, truthy a = truthy b → getF a "type" = getF b "type" →
      getF a "details" = getF b "details" →
      buildReplyForAnalysis a = buildReplyForAnalysis b) ∧
    buildReplyForAnalysis exFoodTotalsOnly =
      some ("Food:\nTotals — Calories: 0, Protein: 0g, Fat: 0g, Carbs: 0g" ++ referenceBlock) ∧
    buildReplyForAnalysis exWorkoutTotalsOnly =
      some "Workout:\n\nTotal estimated calories: 0." := by
  refine ⟨?_, ?_, ?_⟩
  case refine_2 =>
    have hbr : buildReplyForAnalysis exFoodTotalsOnly = some (buildFoodReply []) := rfl
    rw [hbr]
    simp [buildFoodReply, numToString_fin_zero, referenceBlock]
  case refine_3 =>
    have hbr : buildReplyForAnalysis exWorkoutTotalsOnly = buildWorkoutReply [] := rfl
    rw [hbr]
    simp [buildWorkoutReply, optList, joinSep, round_fin_zero, numToString_fin_zero,
      workoutTotalStep]
  intro a b h1 h2 h3
  simp only [buildReplyForAnalysis, detailsArr]
  rw [h1, h2, h3]

/-- C10 witness: two records sharing type and details but renders of
different totals objects produce the identical reply. -/
theorem build_reply_reads_only_type_and_details_witness :
    buildReplyForAnalysis exFoodTotalsOnly =
      buildReplyForAnalysis
        (.vobj [("type", .vstr "food"), ("details", .varr []),
                ("totals", .vobj [("calories", .vnum (.fin 123456))])]) :=
  build_reply_reads_only_type_and_details.1 _ _ rfl rfl rfl

/-- C6 counterexample: a record with the truthy unrecognized type note is
rendered as a food reply, not the apology the claim promises. -/
theorem build_reply_unknown_type_renders_food :
    buildReplyForAnalysis exUnknownType ≠ some apologyText ∧
    buildReplyForAnalysis exUnknownType = some (buildFoodReply []) := by
  have hbr : buildReplyForAnalysis exUnknownType = some (buildFoodReply []) := rfl
  refine ⟨?_, hbr⟩
  rw [hbr]
  intro hc
  exact food_reply_ne_apology [] (Option.some.inj hc)

/-- C6 (amended) — the composer returns the fixed apology exactly for
falsy input or a falsy (absent/empty) type field; a truthy type other
than workout falls through to the food branch and never yields the
apology. -/
theorem build_reply_apology_only_for_falsy_type :
    (∀ a, (truthy a = false ∨ truthy (getF a "type") = false) →
      buildReplyForAnalysis a = some apologyText) ∧
    (∀ a, truthy a = true → truthy (getF a "type") = true →
      isStr (getF a "type") "workout" = false →
      buildReplyForAnalysis a = some (buildFoodReply (detailsArr a)) ∧
      buildReplyForAnalysis a ≠ some apologyText) := by
  constructor
  · intro a h
    rcases h with h | h <;> simp [buildReplyForAnalysis, h]
  · intro a h1 h2 h3
    have heq : buildReplyForAnalysis a = some (buildFoodReply (detailsArr a)) := by
      simp [buildReplyForAnalysis, h1, h2, h3]
    refine ⟨heq, ?_⟩
    rw [heq]
    intro hc
    exact food_reply_ne_apology _ (Option.some.inj hc)

/-- C6 witness: the rule applied at null input yields the apology. -/
theorem build_reply_apology_only_for_falsy_type_witness :
    buildReplyForAnalysis .vnull = some apologyText :=
  build_reply_apology_only_for_falsy_type.1 .vnull (Or.inl rfl)

/-- Annotating a merged item leaves its name unchanged. -/
theorem visionMark_item (m v : MItem) : (visionMark m v).item = m.item := by
  simp only [visionMark]
  split <;> rfl

/-- The annotate walk preserves the item names of the merged list. -/
theorem appendToMatch_map_item :
    ∀ (l : List MItem) (v : MItem) (vn : String),
      (appendToMatch l v vn).map (fun m => m.item) = l.map fun m => m.item
  | [], _, _ => rfl
  | m :: ms, v, vn => by
    simp only [appendToMatch]
    split
    · simp [visionMark_item]
    · simp [appendToMatch_map_item ms v vn]

/-- The annotate walk preserves the length of the merged list. -/
theorem appendToMatch_length (l : List MItem) (v : MItem) (vn : String) :
    (appendToMatch l v vn).length = l.length := by
  have h := appendToMatch_map_item l v vn
  have := congrArg List.length h
  simpa using this

/-- Deduplicating after a snoc is one set-add. -/
theorem dedupFirst_snoc (l : List String) (x : String) :
    dedupFirst (l ++ [x]) = seenAdd (dedupFirst l) x := by
  simp [dedupFirst, List.foldl_append]

/-- The caption loop maintains the invariant that the seen-name set is
exactly the deduplicated normalized names of the merged items. -/
theorem captionPhase_inv :
    ∀ (caps : List MItem) (st : List MItem × List String),
      st.2 = dedupFirst (st.1.map fun m => normalizeName m.item) →
      (caps.foldl captionStep st).2 =
        dedupFirst ((caps.foldl captionStep st).1.map fun m => normalizeName m.item) := by
  intro caps
  induction caps with
  | nil => intro st h; exact h
  | cons c caps ih =>
    intro st h
    simp only [List.foldl_cons]
    apply ih
    simp only [captionStep]
    split
    · exact h
    · simp only [List.map_append, List.map_cons, List.map_nil, dedupFirst_snoc, h]

/-- The vision loop maintains the same invariant. -/
theorem visionPhase_inv :
    ∀ (vis : List MItem) (st : List MItem × List String),
      st.2 = dedupFirst (st.1.map fun m => normalizeName m.item) →
      (vis.foldl visionStep st).2 =
        dedupFirst ((vis.foldl visionStep st).1.map fun m => normalizeName m.item) := by
  intro vis
  induction vis with
  | nil => intro st h; exact h
  | cons v vis ih =>
    intro st h
    simp only [List.foldl_cons]
    apply ih
    simp only [visionStep]
    split
    · exact h
    · split
      · have hmap : (appendToMatch st.1 v (normalizeName v.item)).map
            (fun m => normalizeName m.item) = st.1.map fun m => normalizeName m.item := by
          have h1 := appendToMatch_map_item st.1 v (normalizeName v.item)
          have h2 := congrArg (List.map normalizeName) h1
          simpa [List.map_map, Function.comp] using h2
        simpa [hmap] using h
      · simp only [List.map_append, List.map_cons, List.map_nil, dedupFirst_snoc, h]

/-- C3 counterexample: with caption [dal] and vision [apple pie, apple],
the second vision item matches no caption-derived name, so the claim
predicts three merged items; the code tests against every previously added
name (including vision-added ones), annotates the vision item apple pie,
and produces only two. -/
theorem merge_conflicts_against_vision_names :
    (mergeItems [dalCap] applePairVis).length = 2 ∧
    ¬ (mergeItems [dalCap] applePairVis).length = 3 ∧
    mergeItems [dalCap] applePairVis =
      [dalCap, ⟨"apple pie", ["seen whole", "vision_conf:0.6"], 7 / 10⟩] := by
  refine ⟨?_, ?_, ?_⟩ <;> with_unfolding_all decide

/-- C3 (amended) — the conflict test runs against the seen-name set, which
provably holds the normalized names of every previously added item
(caption-derived and vision-derived alike): a vision item matching one of
those names by the widening tests is not added but annotated onto the
first matching merged item (whose assumptions gain the vision item's plus
a vision_conf marker), and a vision item with no such match is appended;
caption [banana smoothie] with vision [smoothie] merges to one item and
caption [dal] with vision [rice] stays two. -/
theorem merge_dedups_on_seen_names :
    (∀ caps vis, (mergeState caps vis).2 =
      dedupFirst ((mergeState caps vis).1.map fun m => normalizeName m.item)) ∧
    (∀ (caps : List MItem) (v : MItem),
      (normalizeName v.item = "" → mergeItems caps [v] = (caps.foldl captionStep ([], [])).1) ∧
      ((caps.foldl captionStep ([], [])).2.any
          (fun s => conflictsWith s (normalizeName v.item)) = false →
        normalizeName v.item ≠ "" →
        mergeItems caps [v] = (caps.foldl captionStep ([], [])).1 ++ [v]) ∧
      ((caps.foldl captionStep ([], [])).2.any
          (fun s => conflictsWith s (normalizeName v.item)) = true →
        normalizeName v.item ≠ "" →
        mergeItems caps [v] =
          appendToMatch (caps.foldl captionStep ([], [])).1 v (normalizeName v.item) ∧
        (mergeItems caps [v]).length = (caps.foldl captionStep ([], [])).1.length)) ∧
    mergeItems [bananaCap] [smoothieVis] =
      [⟨"banana smoothie", ["estimated", "vision_conf:0.8"], 95 / 100⟩] ∧
    mergeItems [dalCap] [riceVis] = [dalCap, riceVis] := by
  refine ⟨?_, ?_, by with_unfolding_all decide, by with_unfolding_all decide⟩
  · intro caps vis
    exact visionPhase_inv vis _ (captionPhase_inv caps ([], []) rfl)
  · intro caps v
    have hm : mergeItems caps [v] = (visionStep (caps.foldl captionStep ([], [])) v).1 := rfl
    refine ⟨?_, ?_, ?_⟩
    · intro hvn
      rw [hm]
      simp [visionStep, hvn]
    · intro hany hvn
      rw [hm]
      simp [visionStep, hvn, hany]
    · intro hany hvn
      constructor
      · rw [hm]
        simp [visionStep, hvn, hany]
      · rw [hm]
        simp [visionStep, hvn, hany, appendToMatch_length]

/-- C3 witness: the no-conflict branch applied to caption [dal] and vision
[rice]. -/
theorem merge_dedups_on_seen_names_witness :
    mergeItems [dalCap] [riceVis] = ([dalCap].foldl captionStep ([], [])).1 ++ [riceVis] :=
  (merge_dedups_on_seen_names.2.1 [dalCap] riceVis).2.1
    (by with_unfolding_all decide) (by with_unfolding_all decide)

end Cal2
